import Mathlib

/-!
Verification of the generic CRUD repository (`BunCrudRepository`,
src/repository/repository_bun.go) against its natural-language
specification.  The data model and the query-compilation / execution
behaviour of each operation are embedded shallowly: pure fragments of the
Go code become Lean functions, the database table becomes an explicit list
of rows, and the external executor is modelled as running exactly the
statement the repository builds.
-/

namespace CrudRepo

/-- Scalar values stored in entity columns.  The repository passes Go `any`
values through; its tests exercise ints and strings. -/
inductive Val where
  | int (n : Int)
  | str (s : String)
deriving DecidableEq, Repr

/-- A primary key is a mapping from field name to value
(`metadata.PrimaryKey` is Go's `map[string]any`); modelled as its entry
list.  Key distinctness — automatic for a Go map — is stated as a
hypothesis where a theorem needs it. -/
abbrev PrimaryKey := List (String × Val)

/-- Lexicographic comparison of char lists (Go key names compare bytewise;
the test keys are ASCII). -/
def charsLe : List Char → List Char → Bool
  | [], _ => true
  | _ :: _, [] => false
  | a :: as, b :: bs => if a < b then true else if b < a then false else charsLe as bs

/-- Lexicographic comparison of field names. -/
def strLe (a b : String) : Bool := charsLe a.data b.data

/-- One insertion step of the key-order sort. -/
def insertByKey (p : String × Val) : List (String × Val) → List (String × Val)
  | [] => [p]
  | q :: rest => if strLe p.1 q.1 then p :: q :: rest else q :: insertByKey p rest

/-- Modelled from the spec: `PrimaryKey.Sorted()` of the external metadata
package — "a deterministic (lexicographic key) order" view of the key's
(field, value) entries. -/
def PrimaryKey.Sorted (pk : PrimaryKey) : List (String × Val) :=
  pk.foldr insertByKey []

/-- Modelled from the spec: `PrimaryKey.SortedKeys()` — the field names in
the same lexicographic order. -/
def PrimaryKey.SortedKeys (pk : PrimaryKey) : List String :=
  (PrimaryKey.Sorted pk).map Prod.fst

/-- Modelled from the spec: `PrimaryKey.IsComposite()` — "a key is
composite iff it has more than one entry". -/
def PrimaryKey.IsComposite (pk : PrimaryKey) : Bool :=
  decide (1 < pk.length)

/-- The value a primary key holds at a field name, read off the
deterministically ordered entry list. -/
def pkValue (pk : PrimaryKey) (k : String) : Val :=
  ((PrimaryKey.Sorted pk).lookup k).getD (Val.int 0)

/-- Predicate tree (`dataset.Specifier` restricted to the node variants the
repository constructs: Equal, In, CompositeIn, And).  Modelled from the
spec: the node types live in the external dataspec package. -/
inductive Spec where
  | equal (column : String) (value : Val)
  | inList (column : String) (values : List Val)
  | compositeIn (columns : List String) (tuples : List (List Val))
  | and (children : List Spec)
deriving Repr

mutual

/-- Evaluation of a compiled predicate against one row's column valuation. -/
def Spec.eval (f : String → Val) : Spec → Bool
  | .equal c v => decide (f c = v)
  | .inList c vs => decide (f c ∈ vs)
  | .compositeIn cs ts => decide (cs.map f ∈ ts)
  | .and cs => Spec.evalAnd f cs

/-- Conjunction of child fragments, left to right. -/
def Spec.evalAnd (f : String → Val) : List Spec → Bool
  | [] => true
  | s :: rest => Spec.eval f s && Spec.evalAnd f rest

end

/-- Modelled from the spec: a childless conjunction is the empty specifier
("a nil or childless specifier short-circuits filtering entirely"). -/
def Spec.isEmpty : Spec → Bool
  | .and cs => cs.isEmpty
  | _ => false

/-- One stored row: a column valuation plus the soft-deletion marker
(`deleted_at IS NULL` corresponds to `deleted = false`). -/
structure Row where
  fields : String → Val
  deleted : Bool

/-- Whether a delete/select statement's WHERE condition matches a row: with
no attached clause every row matches (repository_bun.go:40, 324, 351: the
clause is attached only for a non-nil, non-empty specifier). -/
def specMatches (spec : Option Spec) (r : Row) : Bool :=
  match spec with
  | none => true
  | some s => if s.isEmpty then true else s.eval r.fields

/-- Rows a select statement returns: the repository attaches the WHERE
clause only when the specifier is non-nil and non-empty
(repository_bun.go:40-46). -/
def matchedRows (spec : Option Spec) (table : List Row) : List Row :=
  match spec with
  | none => table
  | some s => if s.isEmpty then table else table.filter fun r => s.eval r.fields

/-- Underlying executor failures; `noRows` is `database/sql.ErrNoRows`. -/
inductive BaseErr where
  | noRows
  | failure (msg : String)
deriving DecidableEq, Repr

/-- An error a repository operation returns: the underlying failure wrapped
with the operation's tag (`fmt.Errorf("tag: %w", err)`). -/
structure RepoErr where
  tag : String
  base : BaseErr
deriving DecidableEq, Repr

/-- Model of `errors.Is(err, target)` through one `%w` wrap: the wrapped
error still matches its base failure. -/
def RepoErr.isBase (e : RepoErr) (target : BaseErr) : Bool :=
  decide (e.base = target)

/-- Column projection of a scanned row: only the requested columns are
scanned into the entity, `"*"` selects everything, unscanned columns keep
the zero value. -/
def projectFields (columns : List String) (f : String → Val) : String → Val :=
  fun c => if columns.contains "*" || columns.contains c then f c else Val.int 0

/-- `Scan` of a single-row select: `sql.ErrNoRows` when the result set is
empty, else the first row — the behaviour the repository's own test
"find one with err no rows" asserts. -/
def scanOne (rows : List Row) : Except BaseErr Row :=
  match rows with
  | [] => .error .noRows
  | r :: _ => .ok r

/-- FindOne (repository_bun.go:23-55): select by specifier, scan one row,
wrap any failure with the "find one" tag. -/
def FindOne (columns : List String) (spec : Option Spec) (table : List Row) :
    Except RepoErr Row :=
  match scanOne (matchedRows spec table) with
  | .error e => .error ⟨"find one", e⟩
  | .ok r => .ok ⟨projectFields columns r.fields, r.deleted⟩

/-- Go's `(*E, error)` return pair of FindOne: `(nil, err)` on failure,
`(&entity, nil)` on success (repository_bun.go:50-54). -/
def FindOneGo (columns : List String) (spec : Option Spec) (table : List Row) :
    Option Row × Option RepoErr :=
  match FindOne columns spec table with
  | .error e => (none, some e)
  | .ok r => (some r, none)

/-- The specifier FindOneByPk builds (repository_bun.go:65-71): a NewAnd
that appends NewEqual(field, value) for every entry of `pk.Sorted()`. -/
def pkConjSpec (pk : PrimaryKey) : Spec :=
  Spec.and ((PrimaryKey.Sorted pk).map fun p => Spec.equal p.1 p.2)

/-- FindOneByPk (repository_bun.go:59-74): build the conjunction specifier
from the sorted key and delegate to FindOne. -/
def FindOneByPk (columns : List String) (pk : PrimaryKey) (table : List Row) :
    Except RepoErr Row :=
  FindOne columns (some (pkConjSpec pk)) table

/-- FindAll (repository_bun.go:78-109): every row matching the specifier,
projected to the requested columns. -/
def FindAll (columns : List String) (spec : Option Spec) (table : List Row) :
    List Row :=
  (matchedRows spec table).map fun r => ⟨projectFields columns r.fields, r.deleted⟩

/-- The specifier FindAllByPks compiles (repository_bun.go:165-199).  The
first key of the batch fixes `keys` (its sorted field names) and
`isComposite`; a composite batch emits one value tuple per key, each tuple
listing that key's `Sorted()` values, and compiles to NewCompositeIn(keys,
tuples); otherwise the raw map values are flattened and the batch compiles
to NewIn(keys[0], values).  `none` models the Go runtime panic of `keys[0]`
when the key-name slice is empty. -/
def findAllByPksSpec (pks : List PrimaryKey) : Option Spec :=
  match pks with
  | [] => none
  | pk0 :: _ =>
    if PrimaryKey.IsComposite pk0 then
      some (Spec.compositeIn (PrimaryKey.SortedKeys pk0)
        (pks.map fun pk => (PrimaryKey.Sorted pk).map Prod.snd))
    else
      match PrimaryKey.SortedKeys pk0 with
      | [] => none
      | k :: _ => some (Spec.inList k (pks.map (fun pk => pk.map Prod.snd)).flatten)

/-- FindAllByPks (repository_bun.go:159-202): compile the batch specifier
and delegate to FindAll; `none` is the panic on an empty key-name list. -/
def FindAllByPks (columns : List String) (pks : List PrimaryKey)
    (table : List Row) : Option (List Row) :=
  (findAllByPksSpec pks).map fun s => FindAll columns (some s) table

/-- Entity-level metadata the delete semantics depend on: whether the model
declares a soft-delete marker column (the `soft_delete` tag of
TestSoftDeleteEnt in the repository's tests). -/
structure EntityMeta where
  softDelete : Bool

/-- Whether the built DELETE/UPDATE statement carries a caller WHERE clause
(repository_bun.go:324-326 and 351-353: attached only for a non-nil,
non-empty specifier). -/
def deleteHasWhere (spec : Option Spec) : Bool :=
  match spec with
  | none => false
  | some s => !s.isEmpty

/-- ForceDelete (repository_bun.go:310-336): a real removal of every
matched row; returns the new table and the rows-affected count.  Modelled
from the spec: statement execution belongs to the external engine
("always a real row removal, bypassing any soft-delete marker semantics"),
and the repository's ForceDelete tests show the emitted SQL is a plain
DELETE with only the caller's WHERE clause. -/
def ForceDelete (spec : Option Spec) (table : List Row) : List Row × Nat :=
  (table.filter fun r => !specMatches spec r,
   (table.filter fun r => specMatches spec r).length)

/-- Delete (repository_bun.go:338-363).  Modelled from the spec: on a
soft-deletable entity the engine runs an UPDATE that sets the deletion
marker, guarded by "marker not already set" — the SQL the repository's
Delete test expects is `SET "deleted_at" = … WHERE (…) AND "deleted_at" IS
NULL` — while on any other entity it is a real row removal.  Returns the
new table and the rows-affected count. -/
def Delete (m : EntityMeta) (spec : Option Spec) (table : List Row) :
    List Row × Nat :=
  if m.softDelete then
    (table.map fun r =>
       if specMatches spec r && !r.deleted then { r with deleted := true } else r,
     (table.filter fun r => specMatches spec r && !r.deleted).length)
  else
    ForceDelete spec table

/-- IsColumnValueUnique (repository_bun.go:367-388): an EXISTS probe whose
only WHERE condition is the single column equality the repository attaches
(`Where(column+" = ?", value)`).  Modelled from the spec: the executor runs
exactly the built statement over the stored rows ("existence probe scoped
to one column equality, ignoring soft-delete state"). -/
def IsColumnValueUnique (column : String) (value : Val) (table : List Row) :
    Bool :=
  table.any fun r => decide (r.fields column = value)

/-- The repository's connection router (`BunConnSet`,
src/unnamed/part_000): a read pool and a write pool of executors. -/
structure ConnSet (α : Type) where
  readPool : α
  writePool : α

/-- Executor FindOne uses (repository_bun.go:31-33: `if tx == nil { tx =
r.ConnSet.ReadPool() }`). -/
def FindOneExec {α : Type} (tx : Option α) (c : ConnSet α) : α :=
  tx.getD c.readPool

/-- Executor FindAll uses (repository_bun.go:86-88). -/
def FindAllExec {α : Type} (tx : Option α) (c : ConnSet α) : α :=
  tx.getD c.readPool

/-- Executor FindPage uses (repository_bun.go:123-125). -/
def FindPageExec {α : Type} (tx : Option α) (c : ConnSet α) : α :=
  tx.getD c.readPool

/-- Executor Count uses (repository_bun.go:211-213). -/
def CountExec {α : Type} (tx : Option α) (c : ConnSet α) : α :=
  tx.getD c.readPool

/-- Executor IsColumnValueUnique uses (repository_bun.go:373-375). -/
def IsColumnValueUniqueExec {α : Type} (tx : Option α) (c : ConnSet α) : α :=
  tx.getD c.readPool

/-- Executor CreateOne uses (repository_bun.go:243-245: `if tx == nil { tx
= r.ConnSet.WritePool() }`). -/
def CreateOneExec {α : Type} (tx : Option α) (c : ConnSet α) : α :=
  tx.getD c.writePool

/-- Executor CreateAll uses (repository_bun.go:267-269). -/
def CreateAllExec {α : Type} (tx : Option α) (c : ConnSet α) : α :=
  tx.getD c.writePool

/-- Executor UpdateOne uses (repository_bun.go:292-294). -/
def UpdateOneExec {α : Type} (tx : Option α) (c : ConnSet α) : α :=
  tx.getD c.writePool

/-- Executor Delete uses (repository_bun.go:345-347). -/
def DeleteExec {α : Type} (tx : Option α) (c : ConnSet α) : α :=
  tx.getD c.writePool

/-- Executor ForceDelete uses (repository_bun.go:317-319). -/
def ForceDeleteExec {α : Type} (tx : Option α) (c : ConnSet α) : α :=
  tx.getD c.writePool

/-- FindOneByPk resolves its executor by delegating to FindOne
(repository_bun.go:73). -/
def FindOneByPkExec {α : Type} (tx : Option α) (c : ConnSet α) : α :=
  FindOneExec tx c

/-- FindAllByPks resolves its executor by delegating to FindAll
(repository_bun.go:201). -/
def FindAllByPksExec {α : Type} (tx : Option α) (c : ConnSet α) : α :=
  FindAllExec tx c

/-- The repository's operations, named for the error-tag and routing
claims. -/
inductive OpName where
  | findOne | findOneByPk | findAll | findPage | findAllByPks | count
  | createOne | createAll | updateOne | delete | forceDelete
  | isColumnValueUnique
deriving DecidableEq, Repr

/-- The literal tag each operation's `fmt.Errorf("…: %w", err)` site uses
(repository_bun.go:51, 105, 151, 229, 253, 277, 304, 330, 357, 384);
FindOneByPk and FindAllByPks have no wrap site of their own — they
delegate. -/
def opTag : OpName → Option String
  | .findOne => some "find one"
  | .findAll => some "find all"
  | .findPage => some "find page"
  | .count => some "count"
  | .createOne => some "crate one"
  | .createAll => some "create one"
  | .updateOne => some "update one"
  | .delete => some "delete"
  | .forceDelete => some "force delete"
  | .isColumnValueUnique => some "is column value unique"
  | .findOneByPk => none
  | .findAllByPks => none

/-- Wrapping of an executor failure at an operation's wrap site. -/
def wrapErr (op : OpName) (e : BaseErr) : Option RepoErr :=
  (opTag op).map fun t => ⟨t, e⟩

/-- ASCII upper-casing of a clause direction (`strings.ToUpper`). -/
def strUpper (s : String) : String :=
  ⟨s.data.map Char.toUpper⟩

/-- Column resolution of a sort field (repository_bun_test.go:359-362:
`meta.PresenterToPersistence`, falling back to the raw field name when the
mapping is empty). -/
def resolveColumn (meta : String → String) (k : String) : String :=
  if meta k = "" then k else meta k

/-- The ORDER BY clause `Sort.OrderBy` renders
(repository_bun_test.go:355-368) for ONE iteration order of its direction
map.  The Go `Sort` stores its (field, direction) entries in a
`map[string]string`, which carries no iteration order, so the produced
clause is determined only up to a permutation of the stored entries;
`entries` is the order one evaluation happens to iterate in. -/
def OrderBy (meta : String → String) (entries : List (String × String)) :
    String :=
  String.intercalate ","
    (entries.map fun p => resolveColumn meta p.1 ++ " " ++ strUpper p.2)

lemma insertByKey_perm (p : String × Val) (l : List (String × Val)) :
    (insertByKey p l).Perm (p :: l) := by
  induction l with
  | nil => simp [insertByKey]
  | cons q rest ih =>
    by_cases h : strLe p.1 q.1 = true
    · simp [insertByKey, h]
    · rw [insertByKey, if_neg h]
      exact (List.Perm.cons q ih).trans (List.Perm.swap p q rest)

lemma pkSorted_perm (pk : PrimaryKey) : (PrimaryKey.Sorted pk).Perm pk := by
  induction pk with
  | nil => simp [PrimaryKey.Sorted]
  | cons p rest ih =>
    have hstep : PrimaryKey.Sorted (p :: rest)
        = insertByKey p (PrimaryKey.Sorted rest) := rfl
    rw [hstep]
    exact (insertByKey_perm p (PrimaryKey.Sorted rest)).trans (List.Perm.cons p ih)

lemma lookup_of_mem {l : List (String × Val)} {k : String} {v : Val}
    (hn : (l.map Prod.fst).Nodup) (h : (k, v) ∈ l) : l.lookup k = some v := by
  induction l with
  | nil => cases h
  | cons q rest ih =>
    obtain ⟨qk, qv⟩ := q
    have hn' := List.nodup_cons.mp hn
    rcases List.mem_cons.mp h with h1 | h2
    · rw [Prod.mk.injEq] at h1
      rw [h1.1, h1.2]
      simp [List.lookup]
    · have hk : k ≠ qk := by
        intro he
        have hmem : k ∈ rest.map Prod.fst := List.mem_map_of_mem Prod.fst h2
        exact hn'.1 (he ▸ hmem)
      simp only [List.lookup, beq_eq_false_iff_ne.mpr hk, if_neg]
      exact ih hn'.2 h2

lemma map_fst_lookup (l : List (String × Val))
    (hn : (l.map Prod.fst).Nodup) :
    (l.map Prod.fst).map (fun k => (l.lookup k).getD (Val.int 0))
      = l.map Prod.snd := by
  induction l with
  | nil => rfl
  | cons q rest ih =>
    obtain ⟨qk, qv⟩ := q
    have hn' := List.nodup_cons.mp hn
    rw [List.map_cons, List.map_cons, List.map_cons]
    congr 1
    · simp [List.lookup]
    · have hcong : ∀ k ∈ rest.map Prod.fst,
          (((qk, qv) :: rest).lookup k).getD (Val.int 0)
            = (rest.lookup k).getD (Val.int 0) := by
        intro k hk
        have hne : k ≠ qk := fun he => hn'.1 (he ▸ hk)
        simp [List.lookup, beq_eq_false_iff_ne.mpr hne]
      rw [List.map_congr_left hcong, ih hn'.2]

lemma evalAnd_eq_all (f : String → Val) (cs : List Spec) :
    Spec.evalAnd f cs = cs.all (Spec.eval f) := by
  induction cs with
  | nil => rfl
  | cons s rest ih => simp [Spec.evalAnd, List.all_cons, ih]

lemma sortedKeys_nodup {pk : PrimaryKey}
    (hn : ((pk : List (String × Val)).map Prod.fst).Nodup) :
    ((PrimaryKey.Sorted pk).map Prod.fst).Nodup :=
  (((pkSorted_perm pk).map Prod.fst).symm).nodup hn

/-- Claim C1: FindAllByPks with a non-empty batch of composite keys
compiles to a composite IN over the sorted column list of the first key
and, when every key of the batch carries the first key's field set, each
emitted value tuple lists that key's values in that same sorted-column
order; a batch headed by a single-field key instead compiles to a plain
single-column IN over the one sorted key name. -/
theorem findAllByPks_composite_tuple_order
    (pk0 : PrimaryKey) (rest : List PrimaryKey)
    (hnodup : ∀ pk ∈ pk0 :: rest,
      ((pk : List (String × Val)).map Prod.fst).Nodup)
    (hsame : ∀ pk ∈ rest,
      PrimaryKey.SortedKeys pk = PrimaryKey.SortedKeys pk0) :
    (PrimaryKey.IsComposite pk0 = true →
       findAllByPksSpec (pk0 :: rest)
         = some (Spec.compositeIn (PrimaryKey.SortedKeys pk0)
             ((pk0 :: rest).map fun pk =>
               (PrimaryKey.SortedKeys pk0).map (pkValue pk))))
    ∧ (∀ pk ∈ pk0 :: rest, ∀ k v, (k, v) ∈ pk → pkValue pk k = v)
    ∧ (∀ k v, pk0 = [(k, v)] →
         findAllByPksSpec (pk0 :: rest)
           = some (Spec.inList k
               (((pk0 :: rest).map fun pk =>
                 (pk : List (String × Val)).map Prod.snd).flatten))) := by
  refine ⟨?_, ?_, ?_⟩
  · intro hcomp
    simp only [findAllByPksSpec, hcomp, if_true, Option.some.injEq]
    congr 1
    apply List.map_congr_left
    intro pk hpk
    have hkeys : PrimaryKey.SortedKeys pk = PrimaryKey.SortedKeys pk0 := by
      rcases List.mem_cons.mp hpk with h1 | h2
      · rw [h1]
      · exact hsame pk h2
    rw [← hkeys]
    exact (map_fst_lookup (PrimaryKey.Sorted pk)
      (sortedKeys_nodup (hnodup pk hpk))).symm
  · intro pk hpk k v hmem
    have hs : (k, v) ∈ PrimaryKey.Sorted pk :=
      (pkSorted_perm pk).mem_iff.mpr hmem
    rw [pkValue, lookup_of_mem (sortedKeys_nodup (hnodup pk hpk)) hs]
    rfl
  · intro k v hpk0
    subst hpk0
    rfl

/-- Concrete instance of Claim C1: a two-key composite batch, the second
key's entries arriving in the opposite field order, still compiles to
tuples aligned with the first key's sorted columns. -/
theorem findAllByPks_composite_tuple_order_witness :
    PrimaryKey.IsComposite [("b", Val.int 2), ("a", Val.int 1)] = true
    ∧ findAllByPksSpec
        [[("b", Val.int 2), ("a", Val.int 1)],
         [("a", Val.int 3), ("b", Val.int 4)]]
      = some (Spec.compositeIn ["a", "b"]
          [[Val.int 1, Val.int 2], [Val.int 3, Val.int 4]]) := by
  refine ⟨rfl, ?_⟩
  have h := (findAllByPks_composite_tuple_order
      [("b", Val.int 2), ("a", Val.int 1)] [[("a", Val.int 3), ("b", Val.int 4)]]
      (by decide) (by decide)).1 rfl
  rw [h]
  rfl

/-- Claim C2 is refuted by the code: `Sort` keeps its (field, direction)
entries in a Go map, which has no iteration order, so OrderBy's clause
depends on whichever order the map happens to iterate in.  The same
two-entry Sort content — the two lists below are permutations of each
other — renders two different clause strings, so the clause is neither
fixed to the caller-supplied order nor reproducible across evaluations. -/
theorem sort_orderBy_iteration_order_dependent :
    ([("a", "asc"), ("b", "desc")] : List (String × String)).Perm
        [("b", "desc"), ("a", "asc")]
    ∧ OrderBy (fun _ => "") [("a", "asc"), ("b", "desc")] = "a ASC,b DESC"
    ∧ OrderBy (fun _ => "") [("b", "desc"), ("a", "asc")] = "b DESC,a ASC"
    ∧ decide (("a ASC,b DESC" : String) = "b DESC,a ASC") = false :=
  ⟨by decide, by decide, by decide, by decide⟩

/-- Claim C3: FindOneByPk(pk) returns exactly what FindOne returns on the
conjunction of per-field equality predicates over pk.Sorted(), and that
conjunction matches a row's valuation precisely when every (field, value)
entry of pk does. -/
theorem findOneByPk_refines_findOne
    (columns : List String) (pk : PrimaryKey) (table : List Row) :
    FindOneByPk columns pk table = FindOne columns (some (pkConjSpec pk)) table
    ∧ ∀ f : String → Val,
        Spec.eval f (pkConjSpec pk) = decide (∀ p ∈ pk, f p.1 = p.2) := by
  refine ⟨rfl, fun f => ?_⟩
  have h1 : Spec.eval f (pkConjSpec pk)
      = ((PrimaryKey.Sorted pk).map fun p => Spec.equal p.1 p.2).all
          (Spec.eval f) := by
    rw [pkConjSpec, Spec.eval]
    exact evalAnd_eq_all f _
  rw [h1, Bool.eq_iff_iff, List.all_eq_true, decide_eq_true_eq]
  constructor
  · intro h p hp
    exact of_decide_eq_true (h (Spec.equal p.1 p.2)
      (List.mem_map_of_mem _ ((pkSorted_perm pk).mem_iff.mpr hp)))
  · intro h s hs
    obtain ⟨p, hp, rfl⟩ := List.mem_map.mp hs
    exact decide_eq_true (h p ((pkSorted_perm pk).mem_iff.mp hp))

/-- Claim C5: every operation executes on a supplied transaction handle
when there is one; without one the read-only operations resolve to the
router's read pool and the mutating operations to its write pool. -/
theorem connection_routing (α : Type) (c : ConnSet α) (t : α) :
    (FindOneExec (some t) c = t ∧ FindOneByPkExec (some t) c = t
     ∧ FindAllExec (some t) c = t ∧ FindPageExec (some t) c = t
     ∧ FindAllByPksExec (some t) c = t ∧ CountExec (some t) c = t
     ∧ IsColumnValueUniqueExec (some t) c = t
     ∧ CreateOneExec (some t) c = t ∧ CreateAllExec (some t) c = t
     ∧ UpdateOneExec (some t) c = t ∧ DeleteExec (some t) c = t
     ∧ ForceDeleteExec (some t) c = t)
    ∧ (FindOneExec (none : Option α) c = c.readPool
       ∧ FindOneByPkExec (none : Option α) c = c.readPool
       ∧ FindAllExec (none : Option α) c = c.readPool
       ∧ FindPageExec (none : Option α) c = c.readPool
       ∧ FindAllByPksExec (none : Option α) c = c.readPool
       ∧ CountExec (none : Option α) c = c.readPool
       ∧ IsColumnValueUniqueExec (none : Option α) c = c.readPool)
    ∧ (CreateOneExec (none : Option α) c = c.writePool
       ∧ CreateAllExec (none : Option α) c = c.writePool
       ∧ UpdateOneExec (none : Option α) c = c.writePool
       ∧ DeleteExec (none : Option α) c = c.writePool
       ∧ ForceDeleteExec (none : Option α) c = c.writePool) :=
  ⟨⟨rfl, rfl, rfl, rfl, rfl, rfl, rfl, rfl, rfl, rfl, rfl, rfl⟩,
   ⟨rfl, rfl, rfl, rfl, rfl, rfl, rfl⟩,
   ⟨rfl, rfl, rfl, rfl, rfl⟩⟩

/-- Claim C6 is refuted by the code: CreateAll's wrap site tags its
failures "create one" — the name of CreateOne, not of CreateAll — while
CreateOne's own site uses the misspelt "crate one"; the remaining sites do
carry their operation's name.  So a CreateAll failure is not identified by
a tag naming CreateAll. -/
theorem createAll_error_tag_mismatch :
    wrapErr .createAll (.failure "boom")
        = some ⟨"create one", .failure "boom"⟩
    ∧ decide (opTag .createAll = some "create all") = false
    ∧ opTag .createOne = some "crate one"
    ∧ decide (opTag .createOne = some "create one") = false
    ∧ opTag .findOne = some "find one"
    ∧ opTag .findAll = some "find all"
    ∧ opTag .updateOne = some "update one"
    ∧ opTag .delete = some "delete"
    ∧ opTag .forceDelete = some "force delete" :=
  ⟨rfl, by decide, rfl, by decide, rfl, rfl, rfl, rfl, rfl⟩

/-- Claim C9: FindAllByPks on an empty batch hits `keys[0]` on the empty
key-name slice — the Go runtime panic, modelled as `none` — rather than
producing an empty result or an error value. -/
theorem findAllByPks_empty_batch_panics (columns : List String)
    (table : List Row) :
    FindAllByPks columns [] table = none ∧ findAllByPksSpec [] = none :=
  ⟨rfl, rfl⟩

lemma marked_deleted_eq (spec : Option Spec) (r : Row) :
    (if specMatches spec r && !r.deleted then { r with deleted := true }
     else r).deleted
      = (r.deleted || specMatches spec r) := by
  obtain ⟨f, d⟩ := r
  cases d
  · cases hm : specMatches spec ⟨f, false⟩ <;> simp [hm]
  · simp

lemma marked_fields_eq (spec : Option Spec) (r : Row) :
    (if specMatches spec r && !r.deleted then { r with deleted := true }
     else r).fields
      = r.fields := by
  by_cases hm : (specMatches spec r && !r.deleted) = true
  · rw [if_pos hm]
  · rw [if_neg hm]

/-- Claim C4: on a soft-deletable entity Delete removes no row — it sets
the deletion marker on exactly the matched not-yet-marked rows, leaves
already-marked rows untouched, and counts only the newly marked ones —
while ForceDelete physically removes the matched rows; on a
non-soft-deletable entity Delete coincides with ForceDelete; both return
the affected-row count. -/
theorem delete_vs_forceDelete (m : EntityMeta) (spec : Option Spec)
    (table : List Row) :
    (m.softDelete = true →
       (Delete m spec table).1.length = table.length
       ∧ (∀ i : Nat, ((Delete m spec table).1[i]?).map Row.deleted
            = (table[i]?).map fun r => r.deleted || specMatches spec r)
       ∧ (∀ i : Nat, ((Delete m spec table).1[i]?).map Row.fields
            = (table[i]?).map Row.fields)
       ∧ (∀ r ∈ table, r.deleted = true → r ∈ (Delete m spec table).1)
       ∧ (Delete m spec table).2
            = (table.filter fun r => specMatches spec r && !r.deleted).length)
    ∧ (ForceDelete spec table).1 = (table.filter fun r => !specMatches spec r)
    ∧ (ForceDelete spec table).2
        = (table.filter fun r => specMatches spec r).length
    ∧ (m.softDelete = false → Delete m spec table = ForceDelete spec table) := by
  refine ⟨?_, rfl, rfl, ?_⟩
  · intro hsoft
    have hD : Delete m spec table
        = (table.map fun r =>
             if specMatches spec r && !r.deleted then { r with deleted := true }
             else r,
           (table.filter fun r => specMatches spec r && !r.deleted).length) := by
      rw [Delete, if_pos hsoft]
    rw [hD]
    refine ⟨List.length_map _ _, ?_, ?_, ?_, rfl⟩
    · intro i
      rw [List.getElem?_map]
      cases table[i]?
      · rfl
      · exact congrArg some (marked_deleted_eq spec _)
    · intro i
      rw [List.getElem?_map]
      cases table[i]?
      · rfl
      · exact congrArg some (marked_fields_eq spec _)
    · intro r hr hd
      refine List.mem_map.mpr ⟨r, hr, ?_⟩
      simp [hd]
  · intro hhard
    simp [Delete, hhard]

/-- Concrete instance of Claim C4: over a one-row table, soft Delete keeps
the row and counts it, and for a hard-delete entity Delete equals
ForceDelete. -/
theorem delete_vs_forceDelete_witness :
    (Delete ⟨true⟩ none [⟨fun _ => Val.int 1, false⟩]).1.length = 1
    ∧ (Delete ⟨true⟩ none [⟨fun _ => Val.int 1, false⟩]).2 = 1
    ∧ Delete ⟨false⟩ none [⟨fun _ => Val.int 1, false⟩]
        = ForceDelete none [⟨fun _ => Val.int 1, false⟩] := by
  refine ⟨?_, ?_, ?_⟩
  · exact ((delete_vs_forceDelete ⟨true⟩ none [⟨fun _ => Val.int 1, false⟩]).1
      rfl).1
  · have h := ((delete_vs_forceDelete ⟨true⟩ none
      [⟨fun _ => Val.int 1, false⟩]).1 rfl).2.2.2.2
    rw [h]
    rfl
  · exact (delete_vs_forceDelete ⟨false⟩ none
      [⟨fun _ => Val.int 1, false⟩]).2.2.2 rfl

/-- Claim C7: when the specifier matches no row, FindOne returns a nil
entity together with a non-nil error wrapping the distinguished no-rows
failure under the "find one" tag; and in general the entity is nil exactly
when the error is non-nil. -/
theorem findOne_not_found_distinguished
    (columns : List String) (spec : Option Spec) (table : List Row)
    (h : matchedRows spec table = []) :
    FindOneGo columns spec table = (none, some ⟨"find one", BaseErr.noRows⟩)
    ∧ RepoErr.isBase ⟨"find one", BaseErr.noRows⟩ BaseErr.noRows = true
    ∧ ∀ (cols2 : List String) (spec2 : Option Spec) (table2 : List Row),
        (FindOneGo cols2 spec2 table2).1.isNone
          = (FindOneGo cols2 spec2 table2).2.isSome := by
  refine ⟨?_, rfl, ?_⟩
  · simp [FindOneGo, FindOne, h, scanOne]
  · intro cols2 spec2 table2
    cases hx : FindOne cols2 spec2 table2 <;> simp [FindOneGo, hx]

/-- Concrete instance of Claim C7: FindOne over an empty table yields a nil
entity and the wrapped no-rows error. -/
theorem findOne_not_found_witness :
    FindOneGo ["*"] none []
      = (none, some ⟨"find one", BaseErr.noRows⟩) :=
  (findOne_not_found_distinguished ["*"] none [] rfl).1

/-- Claim C8: IsColumnValueUnique(column, value) is true exactly when some
stored row holds the value in that column; the soft-delete markers play no
role in the probe; and a table containing a (here even soft-deleted) row
with name = "test" makes IsColumnValueUnique("name", "test") true. -/
theorem isColumnValueUnique_exists_probe (column : String) (value : Val)
    (table : List Row) :
    IsColumnValueUnique column value table
        = decide (∃ r ∈ table, r.fields column = value)
    ∧ (∀ b : Bool,
        IsColumnValueUnique column value
            (table.map fun r => { r with deleted := b })
          = IsColumnValueUnique column value table)
    ∧ IsColumnValueUnique "name" (Val.str "test")
        [⟨fun _ => Val.str "test", true⟩] = true := by
  refine ⟨?_, fun b => ?_, by decide⟩
  · rw [IsColumnValueUnique, Bool.eq_iff_iff, List.any_eq_true,
      decide_eq_true_eq]
    constructor
    · intro hh
      obtain ⟨r, hr, hv⟩ := hh
      exact ⟨r, hr, of_decide_eq_true hv⟩
    · intro hh
      obtain ⟨r, hr, hv⟩ := hh
      exact ⟨r, hr, decide_eq_true hv⟩
  · rw [IsColumnValueUnique, IsColumnValueUnique, List.any_map]
    rfl

/-- Claim C10: with a nil or empty specifier neither delete operation
attaches a WHERE clause: ForceDelete then empties the table (count = all
rows), Delete on a hard-delete entity does the same, and Delete on a
soft-deletable entity marks every row, counting every not-yet-marked one;
no guard rejects the unscoped statement. -/
theorem unscoped_delete_affects_all (m : EntityMeta) (spec : Option Spec)
    (table : List Row)
    (h : spec = none ∨ ∃ s, spec = some s ∧ s.isEmpty = true) :
    deleteHasWhere spec = false
    ∧ ForceDelete spec table = ([], table.length)
    ∧ (m.softDelete = false → Delete m spec table = ([], table.length))
    ∧ (m.softDelete = true →
         (Delete m spec table).1
             = table.map (fun r => { r with deleted := true })
         ∧ (Delete m spec table).2
             = (table.filter fun r => !r.deleted).length) := by
  have hmatch : ∀ r, specMatches spec r = true := by
    rcases h with rfl | ⟨s, rfl, hs⟩
    · intro r; rfl
    · intro r; simp [specMatches, hs]
  have hwhere : deleteHasWhere spec = false := by
    rcases h with rfl | ⟨s, rfl, hs⟩
    · rfl
    · simp [deleteHasWhere, hs]
  have hforce : ForceDelete spec table = ([], table.length) := by
    rw [ForceDelete]
    have h1 : (table.filter fun r => !specMatches spec r) = [] := by
      simp [hmatch]
    have h2 : (table.filter fun r => specMatches spec r) = table := by
      simp [hmatch]
    rw [h1, h2]
  refine ⟨hwhere, hforce, ?_, ?_⟩
  · intro hhard
    rw [Delete, if_neg (by simp [hhard])]
    exact hforce
  · intro hsoft
    simp only [Delete, hsoft, if_true]
    constructor
    · apply List.map_congr_left
      intro r _
      obtain ⟨f, d⟩ := r
      cases d
      · simp [hmatch]
      · simp
    · have h3 : (table.filter fun r => specMatches spec r && !r.deleted)
          = table.filter fun r => !r.deleted := by
        simp [hmatch]
      rw [h3]

/-- Concrete instance of Claim C10: over a two-row table (one row already
marked), an unscoped ForceDelete empties the table and an unscoped soft
Delete counts exactly the unmarked row. -/
theorem unscoped_delete_affects_all_witness :
    ForceDelete none
        [⟨fun _ => Val.int 1, false⟩, ⟨fun _ => Val.int 2, true⟩]
      = ([], 2)
    ∧ (Delete ⟨true⟩ none
        [⟨fun _ => Val.int 1, false⟩, ⟨fun _ => Val.int 2, true⟩]).2 = 1 := by
  have h := unscoped_delete_affects_all ⟨true⟩ none
    [⟨fun _ => Val.int 1, false⟩, ⟨fun _ => Val.int 2, true⟩] (Or.inl rfl)
  refine ⟨h.2.1, ?_⟩
  have h2 := (h.2.2.2 rfl).2
  rw [h2]
  rfl

end CrudRepo
